import Mathlib

/-!
Verification of the relationship-inference core of the course/profile graph
pipeline: top-k cosine-similarity neighbour selection
(`get_top_similar_courses` in `create_neo4j_graph.py`), multiline text
normalization (`parse_multiline_field` in `create_neo4j_enisa_graph.py`),
keyword-based matching and shared-skill aggregation (the Cypher queries in
`integrate_graphs.py` and `create_neo4j_enisa_graph.py`), and the skill-gap
queries (`query_neo4j_enisa_graph.py`).

Similarity scores are modelled as rationals; the ordering produced by
`np.argsort(scores)[::-1]` is modelled as the reverse of the stable ascending
argsort: descending score, ties in descending index order.
-/

/-- Score lookup `scores[j]` for one row of the similarity matrix (every
access the source performs is in bounds; out of range defaults to 0). -/
def scoreAt (scores : List ℚ) (j : Nat) : ℚ := scores.getD j 0

/-- Ordering of candidate indices used to model `np.argsort(scores)[::-1]`:
a index comes before b when its score is larger, or when the scores are equal
and its index is larger (a stable ascending sort followed by reversal puts
equal scores in descending index order). -/
def argLe (scores : List ℚ) (a b : Nat) : Prop :=
  scoreAt scores b < scoreAt scores a ∨ (scoreAt scores a = scoreAt scores b ∧ b ≤ a)

instance argLe.instDecidableRel (scores : List ℚ) : DecidableRel (argLe scores) := fun a b => by
  unfold argLe; infer_instance

instance argLe.instIsTotal (scores : List ℚ) : IsTotal Nat (argLe scores) :=
  ⟨fun a b => by
    rcases lt_trichotomy (scoreAt scores a) (scoreAt scores b) with h | h | h
    · exact Or.inr (Or.inl h)
    · rcases Nat.le_total a b with hab | hab
      · exact Or.inr (Or.inr ⟨h.symm, hab⟩)
      · exact Or.inl (Or.inr ⟨h, hab⟩)
    · exact Or.inl (Or.inl h)⟩

instance argLe.instIsTrans (scores : List ℚ) : IsTrans Nat (argLe scores) :=
  ⟨fun a b c hab hbc => by
    rcases hab with h1 | ⟨h1, h1b⟩
    · rcases hbc with h2 | ⟨h2, h2b⟩
      · exact Or.inl (lt_trans h2 h1)
      · exact Or.inl (h2 ▸ h1)
    · rcases hbc with h2 | ⟨h2, h2b⟩
      · exact Or.inl (h1 ▸ h2)
      · exact Or.inr ⟨h1.trans h2, Nat.le_trans h2b h1b⟩⟩

/-- Model of `np.argsort(scores)[::-1]` over the index range of one row. -/
def argsortDesc (scores : List ℚ) : List Nat :=
  List.insertionSort (argLe scores) (List.range scores.length)

/-- Inner loop of `get_top_similar_courses`: walk the candidate indices in
argsort order; skip the self index, stop at the first score below the
threshold, stop once `top_k` entries have been taken, otherwise emit
`(i, j, scores[j])` and bump the counter. -/
def pickTop (scores : List ℚ) (i : Nat) (threshold : ℚ) (top_k : Nat) :
    List Nat → Nat → List (Nat × Nat × ℚ)
  | [], _ => []
  | j :: rest, count =>
    if j = i then pickTop scores i threshold top_k rest count
    else if scoreAt scores j < threshold then []
    else if top_k ≤ count then []
    else (i, j, scoreAt scores j) :: pickTop scores i threshold top_k rest (count + 1)

/-- `get_top_similar_courses` from `create_neo4j_graph.py`: for each row of
the similarity matrix, the top-k other indices whose score reaches the
threshold. -/
def get_top_similar_courses (similarity_matrix : List (List ℚ)) (top_k : Nat)
    (threshold : ℚ) : List (Nat × Nat × ℚ) :=
  (List.range similarity_matrix.length).flatMap (fun i =>
    pickTop (similarity_matrix.getD i []) i threshold top_k
      (argsortDesc (similarity_matrix.getD i [])) 0)

/-- Per-source block of `get_top_similar_courses` (one iteration of its outer
loop). -/
def groupOf (m : List (List ℚ)) (top_k : Nat) (threshold : ℚ) (i : Nat) :
    List (Nat × Nat × ℚ) :=
  pickTop (m.getD i []) i threshold top_k (argsortDesc (m.getD i [])) 0

/-- Modelled from the spec: the `InvalidInputError` that section 7 of the
specification prescribes for the similarity step. No such error type exists
anywhere in the source tree. -/
inductive SimError where
  | invalidInput : SimError
deriving DecidableEq

/-- Error-aware embedding of the similarity step. The body of
`get_top_similar_courses` contains no `raise` statement and no operation that
can fail (every index it reads comes from `argsort` over the row itself), so
it always returns a value. -/
def get_top_similar_coursesE (similarity_matrix : List (List ℚ)) (top_k : Nat)
    (threshold : ℚ) : Except SimError (List (Nat × Nat × ℚ)) :=
  Except.ok (get_top_similar_courses similarity_matrix top_k threshold)

/-- Output ordering stated by the spec: grouped by ascending source index,
descending score within a group, ties broken by ascending target index. -/
def specOrdered (l : List (Nat × Nat × ℚ)) : Prop :=
  l.Pairwise (fun e f => e.1 < f.1 ∨
    (e.1 = f.1 ∧ (f.2.2 < e.2.2 ∨ (e.2.2 = f.2.2 ∧ e.2.1 < f.2.1))))

instance specOrdered.instDecidable (l : List (Nat × Nat × ℚ)) : Decidable (specOrdered l) := by
  unfold specOrdered; infer_instance

/-- Output ordering the code produces: grouped by ascending source index,
descending score within a group, ties broken by descending target index. -/
def codeOrdered (l : List (Nat × Nat × ℚ)) : Prop :=
  l.Pairwise (fun e f => e.1 < f.1 ∨
    (e.1 = f.1 ∧ (f.2.2 < e.2.2 ∨ (e.2.2 = f.2.2 ∧ f.2.1 < e.2.1))))

instance codeOrdered.instDecidable (l : List (Nat × Nat × ℚ)) : Decidable (codeOrdered l) := by
  unfold codeOrdered; infer_instance

/-- Python `str.strip()` over a character sequence: remove whitespace from
both ends. -/
def pyStrip (l : List Char) : List Char :=
  ((l.dropWhile Char.isWhitespace).reverse.dropWhile Char.isWhitespace).reverse

/-- Python `str.lstrip(c)`: remove every leading copy of the character. -/
def pyLstrip (c : Char) (l : List Char) : List Char := l.dropWhile (fun a => a == c)

/-- Per-segment cleaning of `parse_multiline_field`: strip, remove leading
bullet glyphs in the source's order (first every `•`, then `-`, then `*`,
then `○`), strip again. -/
def cleanItem (l : List Char) : List Char :=
  pyStrip (pyLstrip '○' (pyLstrip '*' (pyLstrip '-' (pyLstrip '•' (pyStrip l)))))

/-- Python `str.split(c)` on the newline character. -/
def splitNl : List Char → List (List Char)
  | [] => [[]]
  | c :: rest =>
    match splitNl rest with
    | [] => [[]]
    | h :: t => if c = '\n' then [] :: h :: t else (c :: h) :: t

/-- Clean each newline segment and drop the ones that become empty. -/
def segsToItems (segs : List (List Char)) : List String :=
  ((segs.map cleanItem).filter (fun l => !l.isEmpty)).map (fun l => ⟨l⟩)

/-- `parse_multiline_field` from `create_neo4j_enisa_graph.py`; `none` models
a missing (NaN) cell and the empty string is rejected by the `not
field_value` guard. -/
def parse_multiline_field (field_value : Option String) : List String :=
  match field_value with
  | none => []
  | some s => if s.data.isEmpty then [] else segsToItems (splitNl s.data)

/-- Lower-casing of a character sequence (Cypher `toLower`). -/
def lowerL (l : List Char) : List Char := l.map Char.toLower

/-- Prefix test on character sequences. -/
def isPrefixL : List Char → List Char → Bool
  | [], _ => true
  | _ :: _, [] => false
  | a :: as, b :: bs => a == b && isPrefixL as bs

/-- Substring containment on character sequences (Cypher `CONTAINS`). -/
def isSubstrL : List Char → List Char → Bool
  | needle, [] => isPrefixL needle []
  | needle, c :: rest => isPrefixL needle (c :: rest) || isSubstrL needle rest

/-- Matching rule of the WHERE clause in
`create_profile_course_relationships_by_skill` and
`create_skill_course_relationships` (`integrate_graphs.py`): the lower-cased
attribute is contained in the lower-cased title or in the lower-cased
description, each field tested separately. -/
def keywordMatch (attr title description : String) : Bool :=
  isSubstrL (lowerL attr.data) (lowerL title.data) ||
    isSubstrL (lowerL attr.data) (lowerL description.data)

/-- Modelled from the spec, for comparison with `keywordMatch`: the trimmed,
lower-cased attribute tested against the lower-cased concatenation of the
document's text fields (title then description). -/
def keywordMatchSpec (attr title description : String) : Bool :=
  isSubstrL (lowerL (pyStrip attr.data)) (lowerL (title.data ++ description.data))

/-- First-occurrence deduplication, as performed by Cypher
`COUNT(DISTINCT ...)` and `COLLECT(DISTINCT ...)` over a match stream. -/
def dedupF {α : Type} [DecidableEq α] : List α → List α
  | [] => []
  | a :: l => a :: (dedupF l).filter (fun b => decide (b ≠ a))

/-- `COUNT(DISTINCT s)` of the matching step: the number of distinct
attributes from the given sequence that match the document. -/
def match_count (attrs : List String) (title description : String) : Nat :=
  (dedupF (attrs.filter (fun a => keywordMatch a title description))).length

/-- Values attached to a key in an edge list (the skills a profile has an
edge to, in edge order). -/
def valuesOf {α : Type} [BEq α] (edges : List (α × String)) (p : α) : List String :=
  (edges.filter (fun e => e.1 == p)).map (fun e => e.2)

/-- Number of Cypher path matches of
`(p1)-[:HAS_SKILL]->(s)<-[:HAS_SKILL]-(p2)` for a fixed profile pair: edges
of `p1` joined against edges of `p2` on the shared skill node. -/
def pathsThrough (edges : List (Nat × String)) (p1 p2 : Nat) : Nat :=
  ((valuesOf edges p1).map (fun s => (valuesOf edges p2).count s)).sum

/-- Profiles appearing in the edge list, in first-appearance (creation)
order; Neo4j internal ids follow creation order, so the numeric profile id
stands in for `id(p)`. -/
def profilesOf (edges : List (Nat × String)) : List Nat :=
  dedupF (edges.map (fun e => e.1))

/-- `create_skill_similarity_relationships` from
`create_neo4j_enisa_graph.py`: aggregation rows exist only for pairs joined
by at least one shared-skill path (hence `0 < c`), `id(p1) < id(p2)` keeps
one direction of each pair, and `shared_skills >= threshold` filters. -/
def create_skill_similarity_relationships (edges : List (Nat × String))
    (threshold : Nat) : List (Nat × Nat × Nat) :=
  (profilesOf edges).flatMap (fun p1 =>
    (profilesOf edges).filterMap (fun p2 =>
      if p1 < p2 then
        if 0 < pathsThrough edges p1 p2 ∧ threshold ≤ pathsThrough edges p1 p2 then
          some (p1, p2, pathsThrough edges p1 p2)
        else none
      else none))

/-- Canonical ordering of a Document-Document pair: the smaller identifier
becomes the source. -/
def canonPair (p : Nat × Nat × ℚ) : Nat × Nat × ℚ :=
  if p.2.1 < p.1 then (p.2.1, p.1, p.2.2) else p

/-- Keep the first occurrence of each (source, target) key. -/
def dedupKeys : List (Nat × Nat × ℚ) → List (Nat × Nat × ℚ)
  | [] => []
  | p :: l => p :: (dedupKeys l).filter (fun q => decide (¬ (q.1 = p.1 ∧ q.2.1 = p.2.1)))

/-- Modelled from the spec: `build_associations` of the
RelationshipAggregator (spec section 4.4) has no direct counterpart in the
source tree; per the spec it filters by `min_weight` (inclusive boundary),
then canonicalizes Document-Document pair order, then deduplicates exact
(source, target) pairs keeping the first occurrence, emitting in input
order. -/
def build_associations (pairs : List (Nat × Nat × ℚ)) (min_weight : ℚ) :
    List (Nat × Nat × ℚ) :=
  dedupKeys ((pairs.filter (fun p => decide (min_weight ≤ p.2.2))).map canonPair)

/-- Lexicographic order on strings through their character lists; it agrees
with the order on `String` (`String.le_iff_toList_le`) and is the order of
`ORDER BY s.name`. -/
def nameLe (a b : String) : Prop := a.data ≤ b.data

instance nameLe.instDecidableRel : DecidableRel nameLe := fun a b => by
  unfold nameLe; infer_instance

instance nameLe.instIsTotal : IsTotal String nameLe := ⟨fun a b => le_total a.data b.data⟩

instance nameLe.instIsTrans : IsTrans String nameLe := ⟨fun _ _ _ => le_trans⟩

/-- `get_skill_gap` from `query_neo4j_enisa_graph.py`, projected onto the two
skill sets it compares: skills of the target profile with no HAS_SKILL edge
from the current profile, ordered by name (`ORDER BY s.name`). -/
def get_skill_gap (current_skills target_skills : List String) : List String :=
  List.insertionSort nameLe
    (target_skills.filter (fun s => decide (s ∉ current_skills)))

/-- Graph-level `get_skill_gap`: the same query reading both skill sets off
the HAS_SKILL edge list. -/
def get_skill_gapG (hasSkill : List (String × String)) (current target : String) :
    List String :=
  get_skill_gap (valuesOf hasSkill current) (valuesOf hasSkill target)

/-- Skill-gap sub-query of `create_career_pathway_with_courses`
(`integrate_graphs.py`): skills of the target profile with no HAS_SKILL edge
from the current profile, in match order (the query has no ORDER BY). -/
def gapSkillsCollect (hasSkill : List (String × String)) (fromP toP : String) :
    List String :=
  (hasSkill.filter (fun e => e.1 == toP && !(hasSkill.contains (fromP, e.2)))).map
    (fun e => e.2)

/-- Row stream of the courses sub-query of
`create_career_pathway_with_courses`: each gap skill joined with its
`(s)-[:TAUGHT_IN]->(c)` edges. -/
def coveringRows (hasSkill taughtIn : List (String × String)) (fromP toP : String) :
    List (String × String) :=
  (gapSkillsCollect hasSkill fromP toP).flatMap (fun s =>
    (taughtIn.filter (fun e => e.1 == s)).map (fun e => (s, e.2)))

/-- Courses part of `create_career_pathway_with_courses`:
`RETURN DISTINCT c.title, COLLECT(DISTINCT s.name) ... LIMIT 20` — distinct
course titles in first-appearance order, each with its distinct covered
skills, truncated to the first 20. -/
def create_career_pathway_with_courses (hasSkill taughtIn : List (String × String))
    (fromP toP : String) : List (String × List String) :=
  ((dedupF ((coveringRows hasSkill taughtIn fromP toP).map (fun r => r.2))).map
    (fun c => (c, dedupF (((coveringRows hasSkill taughtIn fromP toP).filter
      (fun r => r.2 == c)).map (fun r => r.1))))).take 20

/-- Result ordering claimed by the spec for covering documents: descending
number of matched attributes, ties broken by ascending document identifier. -/
def coveringOrdered (l : List (String × List String)) : Prop :=
  l.Pairwise (fun p q => q.2.length < p.2.length ∨
    (p.2.length = q.2.length ∧ nameLe p.1 q.1))

instance coveringOrdered.instDecidable (l : List (String × List String)) :
    Decidable (coveringOrdered l) := by
  unfold coveringOrdered; infer_instance


/-- Every entry emitted by the inner loop carries the current source index,
never the self index as target, and a score at least the threshold. -/
lemma pickTop_mem {scores : List ℚ} {i : Nat} {t : ℚ} {k : Nat} :
    ∀ {l : List Nat} {c : Nat} {e : Nat × Nat × ℚ}, e ∈ pickTop scores i t k l c →
      e.1 = i ∧ e.2.1 ≠ i ∧ t ≤ e.2.2
  | [], _, e, h => absurd h (by simp [pickTop])
  | j :: rest, c, e, h => by
    rw [pickTop] at h
    split at h
    · exact pickTop_mem h
    · split at h
      · exact absurd h (List.not_mem_nil e)
      · split at h
        · exact absurd h (List.not_mem_nil e)
        · rcases List.mem_cons.1 h with rfl | h2
          · rename_i hj hs hc
            exact ⟨rfl, hj, le_of_not_lt hs⟩
          · exact pickTop_mem h2

/-- The inner loop emits at most `top_k - count` entries. -/
lemma pickTop_length (scores : List ℚ) (i : Nat) (t : ℚ) (k : Nat) :
    ∀ (l : List Nat) (c : Nat), (pickTop scores i t k l c).length ≤ k - c
  | [], c => by simp [pickTop]
  | j :: rest, c => by
    rw [pickTop]
    split
    · exact pickTop_length scores i t k rest c
    · split
      · simp
      · split
        · simp
        · rename_i hj hs hc
          have h2 := pickTop_length scores i t k rest (c + 1)
          simp only [List.length_cons]
          omega

/-- With `top_k = 0` the inner loop emits nothing. -/
lemma pickTop_zero {scores : List ℚ} {i : Nat} {t : ℚ} :
    ∀ (l : List Nat) (c : Nat), pickTop scores i t 0 l c = []
  | [], _ => rfl
  | j :: rest, c => by
    rw [pickTop]
    split
    · exact pickTop_zero rest c
    · split
      · rfl
      · rw [if_pos (Nat.zero_le c)]

/-- The inner loop's output is a sublist of the candidate traversal with the
source and score attached. -/
lemma pickTop_sublist {scores : List ℚ} {i : Nat} {t : ℚ} {k : Nat} :
    ∀ (l : List Nat) (c : Nat),
      (pickTop scores i t k l c).Sublist
        (l.map (fun j => (i, j, scoreAt scores j)))
  | [], _ => by simp [pickTop]
  | j :: rest, c => by
    rw [pickTop, List.map_cons]
    split
    · exact (pickTop_sublist rest c).cons _
    · split
      · exact List.nil_sublist _
      · split
        · exact List.nil_sublist _
        · exact (pickTop_sublist rest (c + 1)).cons₂ _

/-- The argsort order visits each candidate index once. -/
lemma argsortDesc_nodup (scores : List ℚ) : (argsortDesc scores).Nodup :=
  ((List.perm_insertionSort (argLe scores) (List.range scores.length)).symm).nodup
    (List.nodup_range _)

/-- Outer-loop form of `get_top_similar_courses`. -/
lemma gts_eq (m : List (List ℚ)) (k : Nat) (t : ℚ) :
    get_top_similar_courses m k t = (List.range m.length).flatMap (groupOf m k t) := rfl

/-- Entries of the per-source block carry that source index. -/
lemma groupOf_sources {m : List (List ℚ)} {k : Nat} {t : ℚ} {i : Nat}
    {e : Nat × Nat × ℚ} (he : e ∈ groupOf m k t i) : e.1 = i := by
  unfold groupOf at he
  exact (pickTop_mem he).1

/-- Entries of the selection never pair an index with itself and carry a
score at least the threshold. -/
lemma mem_gts {m : List (List ℚ)} {k : Nat} {t : ℚ} {e : Nat × Nat × ℚ}
    (he : e ∈ get_top_similar_courses m k t) : e.1 ≠ e.2.1 ∧ t ≤ e.2.2 := by
  rw [gts_eq] at he
  rcases List.mem_flatMap.1 he with ⟨i, _, hei⟩
  have h1 := groupOf_sources hei
  unfold groupOf at hei
  obtain ⟨_, h2, h3⟩ := pickTop_mem hei
  refine ⟨?_, h3⟩
  rw [h1]
  exact Ne.symm h2

/-- A flatMap over blocks that are all empty is empty. -/
lemma flatMap_eq_nil_of {α β : Type} {f : α → List β} :
    ∀ {l : List α}, (∀ a ∈ l, f a = []) → l.flatMap f = []
  | [], _ => rfl
  | a :: l, h => by
    rw [List.flatMap_cons, h a (List.mem_cons_self a l), List.nil_append]
    exact flatMap_eq_nil_of (fun b hb => h b (List.mem_cons_of_mem a hb))

/-- With `top_k = 0` the whole selection is empty. -/
lemma gts_k_zero (m : List (List ℚ)) (t : ℚ) : get_top_similar_courses m 0 t = [] := by
  rw [gts_eq]
  apply flatMap_eq_nil_of
  intro i _
  unfold groupOf
  exact pickTop_zero _ _

/-- Length of the per-source filter over a flatMap whose blocks are tagged by
their source. -/
lemma filter_flatMap_len {g : Nat → List (Nat × Nat × ℚ)}
    (hg : ∀ j, ∀ e ∈ g j, e.1 = j) :
    ∀ (is : List Nat), is.Nodup → ∀ i : Nat,
      ((is.flatMap g).filter (fun e => e.1 == i)).length =
        if i ∈ is then (g i).length else 0
  | [], _, i => by simp
  | j :: is, hnd, i => by
    obtain ⟨hj, hnd2⟩ := List.nodup_cons.1 hnd
    rw [List.flatMap_cons, List.filter_append, List.length_append,
      filter_flatMap_len hg is hnd2 i]
    by_cases hij : i = j
    · subst hij
      rw [if_neg hj, if_pos (List.mem_cons_self i is)]
      have hself : (g i).filter (fun e => e.1 == i) = g i :=
        List.filter_eq_self.2 (fun e he => by simp [hg i e he])
      rw [hself]
      simp
    · have hnone : (g j).filter (fun e => e.1 == i) = [] :=
        List.filter_eq_nil_iff.2 (fun e he => by simp [hg j e he, Ne.symm hij])
      rw [hnone]
      simp [List.mem_cons, hij]

/-- Each source index receives at most `top_k` entries. -/
lemma gts_filter_le (m : List (List ℚ)) (k : Nat) (t : ℚ) (i : Nat) :
    ((get_top_similar_courses m k t).filter (fun e => e.1 == i)).length ≤ k := by
  rw [gts_eq, filter_flatMap_len (fun j e he => groupOf_sources he)
    (List.range m.length) (List.nodup_range _) i]
  split
  · unfold groupOf
    have h := pickTop_length (m.getD i []) i t k (argsortDesc (m.getD i [])) 0
    omega
  · exact Nat.zero_le _

/-- Each per-source block is ordered by descending score with ties broken by
descending target index. -/
lemma groupOf_pairwise (m : List (List ℚ)) (k : Nat) (t : ℚ) (i : Nat) :
    (groupOf m k t i).Pairwise (fun e f => e.1 < f.1 ∨
      (e.1 = f.1 ∧ (f.2.2 < e.2.2 ∨ (e.2.2 = f.2.2 ∧ f.2.1 < e.2.1)))) := by
  have hsorted : List.Pairwise (argLe (m.getD i [])) (argsortDesc (m.getD i [])) :=
    List.sorted_insertionSort (argLe (m.getD i [])) (List.range (m.getD i []).length)
  have hmap : ((argsortDesc (m.getD i [])).map
      (fun j => (i, j, scoreAt (m.getD i []) j))).Pairwise (fun e f => e.1 < f.1 ∨
        (e.1 = f.1 ∧ (f.2.2 < e.2.2 ∨ (e.2.2 = f.2.2 ∧ f.2.1 < e.2.1)))) := by
    rw [List.pairwise_map]
    refine (hsorted.and (argsortDesc_nodup (m.getD i []))).imp ?_
    rintro a b ⟨hle, hne⟩
    rcases hle with h1 | ⟨h1, h2⟩
    · exact Or.inr ⟨rfl, Or.inl h1⟩
    · exact Or.inr ⟨rfl, Or.inr ⟨h1, Nat.lt_of_le_of_ne h2 (fun hba => hne hba.symm)⟩⟩
  unfold groupOf
  exact List.Pairwise.sublist (pickTop_sublist _ _) hmap

/-- Membership is unchanged by first-occurrence deduplication. -/
lemma mem_dedupF {α : Type} [DecidableEq α] (a : α) :
    ∀ (l : List α), a ∈ dedupF l ↔ a ∈ l
  | [] => Iff.rfl
  | b :: l => by
    simp only [dedupF, List.mem_cons, List.mem_filter, decide_eq_true_iff]
    constructor
    · rintro (rfl | ⟨h1, _⟩)
      · exact Or.inl rfl
      · exact Or.inr ((mem_dedupF a l).1 h1)
    · rintro (rfl | h)
      · exact Or.inl rfl
      · by_cases hab : a = b
        · exact Or.inl hab
        · exact Or.inr ⟨(mem_dedupF a l).2 h, hab⟩

/-- First-occurrence deduplication yields a duplicate-free list. -/
lemma nodup_dedupF {α : Type} [DecidableEq α] : ∀ (l : List α), (dedupF l).Nodup
  | [] => List.nodup_nil
  | b :: l => by
    rw [dedupF, List.nodup_cons]
    constructor
    · intro hb
      rcases List.mem_filter.1 hb with ⟨_, hne⟩
      simp at hne
    · exact (nodup_dedupF l).filter _

/-- The number of distinct elements of a list is the cardinality of its
finset of elements. -/
lemma length_dedupF_toFinset {α : Type} [DecidableEq α] (l : List α) :
    (dedupF l).length = l.toFinset.card := by
  rw [← List.toFinset_card_of_nodup (nodup_dedupF l)]
  congr 1
  ext a
  simp [List.mem_toFinset, mem_dedupF]

/-- Entries of the shared-skill aggregation keep one pair direction, meet the
threshold, and carry a positive shared count. -/
lemma mem_csr {edges : List (Nat × String)} {θ : Nat} {x : Nat × Nat × Nat}
    (hx : x ∈ create_skill_similarity_relationships edges θ) :
    x.1 < x.2.1 ∧ θ ≤ x.2.2 ∧ 1 ≤ x.2.2 := by
  rcases List.mem_flatMap.1 hx with ⟨p1, _, hx2⟩
  rcases List.mem_filterMap.1 hx2 with ⟨p2, _, hf⟩
  by_cases h12 : p1 < p2
  · rw [if_pos h12] at hf
    by_cases hc : 0 < pathsThrough edges p1 p2 ∧ θ ≤ pathsThrough edges p1 p2
    · rw [if_pos hc] at hf
      cases hf
      exact ⟨h12, hc.2, hc.1⟩
    · rw [if_neg hc] at hf
      cases hf
  · rw [if_neg h12] at hf
    cases hf

/-- Splitting never yields an empty segment list. -/
lemma splitNl_ne_nil : ∀ (l : List Char), splitNl l ≠ []
  | [] => by simp [splitNl]
  | c :: rest => by
    rw [splitNl]
    rcases hs : splitNl rest with _ | ⟨hd, tl⟩
    · simp
    · by_cases hc : c = '\n' <;> simp [hc]

/-- Splitting distributes over a newline in the middle. -/
lemma splitNl_append : ∀ (a b : List Char),
    splitNl (a ++ '\n' :: b) = splitNl a ++ splitNl b
  | [], b => by
    rcases hs : splitNl b with _ | ⟨hd, tl⟩
    · exact absurd hs (splitNl_ne_nil b)
    · simp [splitNl, hs]
  | c :: a, b => by
    have IH := splitNl_append a b
    rcases hs : splitNl (a ++ '\n' :: b) with _ | ⟨hd, tl⟩
    · exact absurd hs (splitNl_ne_nil _)
    · rcases ha : splitNl a with _ | ⟨hd2, tl2⟩
      · exact absurd ha (splitNl_ne_nil a)
      · rw [hs, ha] at IH
        obtain ⟨rfl, rfl⟩ : hd = hd2 ∧ tl = tl2 ++ splitNl b := by simpa using IH
        show splitNl (c :: (a ++ '\n' :: b)) = splitNl (c :: a) ++ splitNl b
        rw [splitNl, splitNl, hs, ha]
        by_cases hc : c = '\n' <;> simp [hc]

/-- Segment cleaning distributes over appended segment lists. -/
lemma segsToItems_append (s1 s2 : List (List Char)) :
    segsToItems (s1 ++ s2) = segsToItems s1 ++ segsToItems s2 := by
  unfold segsToItems
  rw [List.map_append, List.filter_append, List.map_append]

/-- The empty-string guard of `parse_multiline_field` is redundant: parsing a
present cell is cleaning of its newline segments. -/
lemma parse_some_eq (s : String) :
    parse_multiline_field (some s) = segsToItems (splitNl s.data) := by
  have h0 : parse_multiline_field (some s) =
      if s.data.isEmpty then [] else segsToItems (splitNl s.data) := rfl
  rw [h0]
  rcases s.data with _ | ⟨c, cs⟩
  · decide
  · rfl

/-- Claim C1: for every similarity matrix with at least two rows, every
k at least 1 and every threshold, `get_top_similar_courses` returns at most
k entries per source index, never returns an entry whose source equals its
target, and every returned score is at least the threshold. -/
theorem C1_top_k_selection_bounds (m : List (List ℚ)) (k : Nat) (t : ℚ) (i : Nat)
    (e : Nat × Nat × ℚ) (hrows : 2 ≤ m.length) (hk : 1 ≤ k)
    (he : e ∈ get_top_similar_courses m k t) :
    ((get_top_similar_courses m k t).filter (fun x => x.1 == i)).length ≤ k ∧
      e.1 ≠ e.2.1 ∧ t ≤ e.2.2 :=
  ⟨gts_filter_le m k t i, (mem_gts he).1, (mem_gts he).2⟩

/-- Witness for C1 at a concrete 2-by-2 similarity matrix. -/
theorem C1_top_k_selection_bounds_witness :
    ((get_top_similar_courses [[(2:ℚ), 1], [1, 2]] 1 1).filter
      (fun x => x.1 == 0)).length ≤ 1 ∧
      (0, 1, (1:ℚ)).1 ≠ (0, 1, (1:ℚ)).2.1 ∧ (1:ℚ) ≤ (0, 1, (1:ℚ)).2.2 :=
  C1_top_k_selection_bounds [[(2:ℚ), 1], [1, 2]] 1 1 0 (0, 1, (1:ℚ))
    (by decide) (by decide) (by decide)

/-- Claim C2, amended: the output is grouped by ascending source index with
descending scores inside a group, but score ties are broken by descending
target index (the reversal of the ascending argsort), and truncation to k
keeps the larger-index tied target, as the concrete 3-by-3 run shows. -/
theorem C2_output_ordering (m : List (List ℚ)) (k : Nat) (t : ℚ) :
    codeOrdered (get_top_similar_courses m k t) ∧
      get_top_similar_courses [[2, 1, 1], [1, 2, 1], [1, 1, 2]] 1 1 =
        [(0, 2, 1), (1, 2, 1), (2, 1, 1)] := by
  constructor
  · unfold codeOrdered
    rw [gts_eq, List.pairwise_flatMap]
    constructor
    · intro i _
      exact groupOf_pairwise m k t i
    · refine (List.pairwise_lt_range m.length).imp ?_
      intro a b hab x hx y hy
      exact Or.inl (by rw [groupOf_sources hx, groupOf_sources hy]; exact hab)
  · decide

/-- Counterexample for C2 as stated: on the 3-by-3 matrix with tied scores
the output is not ordered with ties by ascending target index. -/
theorem C2_spec_tie_order_counterexample :
    ¬ specOrdered (get_top_similar_courses [[2, 1, 1], [1, 2, 1], [1, 1, 2]] 5 1) := by
  decide

/-- Claim C3, amended: the similarity step performs no input validation and
can never fail; it returns a plain result on every input, in particular the
empty list when k = 0 or when the matrix is empty. -/
theorem C3_similarity_never_fails (m : List (List ℚ)) (k : Nat) (t : ℚ) :
    (get_top_similar_coursesE m k t).isOk = true ∧
      (k = 0 → get_top_similar_coursesE m k t = Except.ok []) ∧
      (m = [] → get_top_similar_coursesE m k t = Except.ok []) := by
  refine ⟨rfl, ?_, ?_⟩
  · rintro rfl
    unfold get_top_similar_coursesE
    rw [gts_k_zero]
  · rintro rfl
    rfl

/-- Witness for C3 at a concrete precondition-violating input (one row,
k = 0). -/
theorem C3_similarity_never_fails_witness :
    (get_top_similar_coursesE [[(1:ℚ)]] 0 0).isOk = true ∧
      ((0:Nat) = 0 → get_top_similar_coursesE [[(1:ℚ)]] 0 0 = Except.ok []) ∧
      ([[(1:ℚ)]] = ([] : List (List ℚ)) →
        get_top_similar_coursesE [[(1:ℚ)]] 0 0 = Except.ok []) :=
  C3_similarity_never_fails [[(1:ℚ)]] 0 0

/-- Counterexample for C3 as stated: on a one-row matrix, which violates the
spec's precondition, the similarity step returns a normal value instead of
failing with an InvalidInputError. -/
theorem C3_invalid_input_counterexample :
    get_top_similar_coursesE [[(1:ℚ)]] 5 1 = Except.ok [] := rfl

/-- Claim C4, amended: a keyword matches when its lower-cased form is a
substring of the lower-cased title or of the lower-cased description, each
field tested separately (not their concatenation, and without trimming);
match_count is the number of distinct matching attributes; the
network-security example behaves as stated. -/
theorem C4_keyword_matching (attrs : List String) (title description : String) :
    match_count attrs title description =
      (attrs.toFinset.filter (fun a => keywordMatch a title description = true)).card ∧
      keywordMatch "network security" "Intro to Network Security" "" = true ∧
      keywordMatch "network security" "Network Basics" "" = false := by
  refine ⟨?_, by decide, by decide⟩
  unfold match_count
  rw [length_dedupF_toFinset, List.toFinset_filter]

/-- Counterexample for C4 as stated: the attribute "ab" is a substring of the
concatenation of title "a" and description "b", so the spec's rule matches,
but the code tests each field separately and does not match. -/
theorem C4_concatenation_counterexample :
    keywordMatch "ab" "a" "b" = false ∧ keywordMatchSpec "ab" "a" "b" = true := by
  decide

/-- Claim C5: build_associations keeps a pair whose weight equals min_weight,
filters before canonicalization so the spec's three-pair example emits
exactly (1,3,0.9), and canonicalizes Document-Document pairs so the smaller
identifier becomes the source; the shared-skill aggregation likewise keeps
only the direction with the smaller id first and never emits both (a,b) and
(b,a). -/
theorem C5_aggregation (edges : List (Nat × String)) (θ : Nat)
    (x y : Nat × Nat × Nat) (s t : Nat) (w mw : ℚ)
    (hx : x ∈ create_skill_similarity_relationships edges θ)
    (hy : y ∈ create_skill_similarity_relationships edges θ)
    (hw : mw ≤ w) (hst : s < t) :
    build_associations [(1, 2, mkRat 2 5), (2, 1, mkRat 2 5), (1, 3, mkRat 9 10)]
        (mkRat 1 2) = [(1, 3, mkRat 9 10)] ∧
      build_associations [(s, t, w)] mw = [(s, t, w)] ∧
      build_associations [(t, s, w)] mw = [(s, t, w)] ∧
      x.1 < x.2.1 ∧ θ ≤ x.2.2 ∧ ¬ (y.1 = x.2.1 ∧ y.2.1 = x.1) := by
  obtain ⟨hx1, hx2, _⟩ := mem_csr hx
  obtain ⟨hy1, _, _⟩ := mem_csr hy
  refine ⟨by decide, ?_, ?_, hx1, hx2, ?_⟩
  · simp [build_associations, canonPair, dedupKeys, hw, Nat.lt_asymm hst]
  · simp [build_associations, canonPair, dedupKeys, hw, hst]
  · rintro ⟨h1, h2⟩
    rw [h1, h2] at hy1
    exact absurd (lt_trans hx1 hy1) (lt_irrefl _)

/-- Witness for C5 at a concrete two-profile graph sharing one skill. -/
theorem C5_aggregation_witness :
    build_associations [(1, 2, mkRat 2 5), (2, 1, mkRat 2 5), (1, 3, mkRat 9 10)]
        (mkRat 1 2) = [(1, 3, mkRat 9 10)] ∧
      build_associations [(1, 2, mkRat 1 2)] (mkRat 1 2) = [(1, 2, mkRat 1 2)] ∧
      build_associations [(2, 1, mkRat 1 2)] (mkRat 1 2) = [(1, 2, mkRat 1 2)] ∧
      (1, 2, 1).1 < (1, 2, 1).2.1 ∧ 1 ≤ (1, 2, 1).2.2 ∧
      ¬ ((1, 2, 1).1 = (1, 2, 1).2.1 ∧ (1, 2, 1).2.1 = (1, 2, 1).1) :=
  C5_aggregation [(1, "x"), (2, "x")] 1 (1, 2, 1) (1, 2, 1) 1 2 (mkRat 1 2) (mkRat 1 2)
    (by decide) (by decide) (by decide) (by decide)

/-- Claim C6: attribute_gap returns the set difference target minus current in
ascending sorted order; it is empty exactly when the target set is contained
in the current one, the gap of a set against itself is empty, and the gap
from the empty set is the sorted target list. -/
theorem C6_attribute_gap (A B : List String) :
    (get_skill_gap A B).toFinset = B.toFinset \ A.toFinset ∧
      List.Sorted (fun a b : String => a ≤ b) (get_skill_gap A B) ∧
      (get_skill_gap A B = [] ↔ ∀ b ∈ B, b ∈ A) ∧
      get_skill_gap A A = [] ∧
      get_skill_gap [] B = List.insertionSort nameLe B := by
  refine ⟨?_, ?_, ?_, ?_, ?_⟩
  · ext a
    simp [get_skill_gap, List.mem_toFinset, List.mem_insertionSort, List.mem_filter,
      Finset.mem_sdiff, decide_eq_true_iff]
  · exact (List.sorted_insertionSort nameLe _).imp
      (fun h => String.le_iff_toList_le.mpr h)
  · constructor
    · intro h b hb
      have hlen := (List.perm_insertionSort nameLe
        (B.filter (fun s => decide (s ∉ A)))).length_eq
      rw [get_skill_gap] at h
      rw [h] at hlen
      have hfil : B.filter (fun s => decide (s ∉ A)) = [] :=
        List.eq_nil_of_length_eq_zero hlen.symm
      by_contra hbA
      have : b ∈ B.filter (fun s => decide (s ∉ A)) :=
        List.mem_filter.2 ⟨hb, by simp [hbA]⟩
      rw [hfil] at this
      exact List.not_mem_nil b this
    · intro h
      rw [get_skill_gap, List.filter_eq_nil_iff.2 (fun b hb => by simp [h b hb])]
      rfl
  · rw [get_skill_gap, List.filter_eq_nil_iff.2 (fun b hb => by simp [hb])]
    rfl
  · rw [get_skill_gap, List.filter_eq_self.2 (fun b hb => by simp)]

/-- Witness for C6 at concrete one- and two-element attribute sets. -/
theorem C6_attribute_gap_witness :
    (get_skill_gap ["b"] ["a", "b"]).toFinset =
        (["a", "b"] : List String).toFinset \ (["b"] : List String).toFinset ∧
      List.Sorted (fun a b : String => a ≤ b) (get_skill_gap ["b"] ["a", "b"]) ∧
      (get_skill_gap ["b"] ["a", "b"] = [] ↔
        ∀ b ∈ (["a", "b"] : List String), b ∈ (["b"] : List String)) ∧
      get_skill_gap ["b"] ["b"] = [] ∧
      get_skill_gap [] ["a", "b"] = List.insertionSort nameLe ["a", "b"] :=
  C6_attribute_gap ["b"] ["a", "b"]

/-- Claim C7: parse_multiline splits on newlines, strips bullet glyphs and
surrounding whitespace, drops segments that end up empty, maps a missing cell
to the empty list without error, and sends the bulleted example to exactly
Python and SQL. -/
theorem C7_parse_multiline (s t x : String)
    (hx : x ∈ parse_multiline_field (some s)) :
    parse_multiline_field none = [] ∧
      parse_multiline_field (some "") = [] ∧
      parse_multiline_field (some "• Python\n- SQL\n\n  ") = ["Python", "SQL"] ∧
      x.data ≠ [] ∧
      parse_multiline_field (some (s ++ "\n" ++ t)) =
        parse_multiline_field (some s) ++ parse_multiline_field (some t) := by
  refine ⟨rfl, rfl, by decide, ?_, ?_⟩
  · rw [parse_some_eq] at hx
    unfold segsToItems at hx
    rcases List.mem_map.1 hx with ⟨l, hl, rfl⟩
    rcases List.mem_filter.1 hl with ⟨_, hne⟩
    intro h0
    have hl0 : l = [] := h0
    rw [hl0] at hne
    simp at hne
  · rw [parse_some_eq, parse_some_eq, parse_some_eq]
    have hdata : (s ++ "\n" ++ t).data = s.data ++ '\n' :: t.data := by
      rw [String.data_append, String.data_append]
      simp
    rw [hdata, splitNl_append, segsToItems_append]

/-- Witness for C7 at the spec's bulleted example split into two cells. -/
theorem C7_parse_multiline_witness :
    parse_multiline_field none = [] ∧
      parse_multiline_field (some "") = [] ∧
      parse_multiline_field (some "• Python\n- SQL\n\n  ") = ["Python", "SQL"] ∧
      ("Python" : String).data ≠ [] ∧
      parse_multiline_field (some ("• Python" ++ "\n" ++ "- SQL\n\n  ")) =
        parse_multiline_field (some "• Python") ++
          parse_multiline_field (some "- SQL\n\n  ") :=
  C7_parse_multiline "• Python" "- SQL\n\n  " "Python" (by decide)

/-- Claim C8, amended: the covering-courses query caps its result count at the
hardcoded limit 20, emits results in match order rather than sorted by
descending match count and ascending identifier, and both it and the
skill-gap query return empty collections when the queried profile does not
exist. -/
theorem C8_covering_documents (hasSkill taughtIn : List (String × String))
    (fromP toP : String) :
    (create_career_pathway_with_courses hasSkill taughtIn fromP toP).length ≤ 20 ∧
      ((∀ e ∈ hasSkill, e.1 ≠ toP) →
        create_career_pathway_with_courses hasSkill taughtIn fromP toP = [] ∧
          get_skill_gapG hasSkill fromP toP = []) := by
  constructor
  · unfold create_career_pathway_with_courses
    rw [List.length_take]
    exact min_le_left _ _
  · intro hmiss
    have h1 : gapSkillsCollect hasSkill fromP toP = [] := by
      unfold gapSkillsCollect
      rw [List.filter_eq_nil_iff.2 (fun e he => by simp [hmiss e he])]
      rfl
    constructor
    · unfold create_career_pathway_with_courses coveringRows
      rw [h1]
      rfl
    · have h2 : valuesOf hasSkill toP = [] := by
        unfold valuesOf
        rw [List.filter_eq_nil_iff.2 (fun e he => by simp [hmiss e he])]
        rfl
      unfold get_skill_gapG
      rw [h2]
      rfl

/-- Witness for C8 at a graph whose queried target profile is absent. -/
theorem C8_covering_documents_witness :
    (create_career_pathway_with_courses [("T", "a")] ([] : List (String × String))
        "C" "X").length ≤ 20 ∧
      ((∀ e ∈ [("T", "a")], e.1 ≠ "X") →
        create_career_pathway_with_courses [("T", "a")] ([] : List (String × String))
            "C" "X" = [] ∧
          get_skill_gapG [("T", "a")] "C" "X" = []) :=
  C8_covering_documents [("T", "a")] ([] : List (String × String)) "C" "X"

/-- Counterexample for C8 as stated: with gap skills a and b, course Z
covering one and course A covering both, the query returns Z before A, so the
result is not ordered by descending match count with ascending-identifier
ties. -/
theorem C8_ordering_counterexample :
    create_career_pathway_with_courses [("T", "a"), ("T", "b")]
        [("a", "Z"), ("a", "A"), ("b", "A")] "C" "T" =
        [("Z", ["a"]), ("A", ["a", "b"])] ∧
      ¬ coveringOrdered [("Z", ["a"]), ("A", ["a", "b"])] := by
  exact ⟨by decide, by decide⟩

/-- Claim C9, amended: neither producer ever pairs a document with itself;
shared-skill weights are always at least 1; similarity weights are at least
the threshold, hence positive whenever the threshold is positive, though zero
or negative thresholds can let zero- or negative-weight associations
through. -/
theorem C9_association_invariants (m : List (List ℚ)) (k : Nat) (t : ℚ)
    (e : Nat × Nat × ℚ) (edges : List (Nat × String)) (θ : Nat)
    (x : Nat × Nat × Nat) (he : e ∈ get_top_similar_courses m k t)
    (hx : x ∈ create_skill_similarity_relationships edges θ) :
    e.1 ≠ e.2.1 ∧ t ≤ e.2.2 ∧ (0 < t → 0 < e.2.2) ∧
      x.1 ≠ x.2.1 ∧ 1 ≤ x.2.2 := by
  obtain ⟨h1, h2⟩ := mem_gts he
  obtain ⟨g1, _, g3⟩ := mem_csr hx
  exact ⟨h1, h2, fun ht => lt_of_lt_of_le ht h2, Nat.ne_of_lt g1, g3⟩

/-- Witness for C9 at a concrete matrix and a concrete two-profile graph. -/
theorem C9_association_invariants_witness :
    (0, 1, (1:ℚ)).1 ≠ (0, 1, (1:ℚ)).2.1 ∧ (1:ℚ) ≤ (0, 1, (1:ℚ)).2.2 ∧
      ((0:ℚ) < 1 → (0:ℚ) < (0, 1, (1:ℚ)).2.2) ∧
      (1, 2, 1).1 ≠ (1, 2, 1).2.1 ∧ 1 ≤ (1, 2, 1).2.2 :=
  C9_association_invariants [[(2:ℚ), 1], [1, 2]] 1 1 (0, 1, (1:ℚ))
    [(1, "x"), (2, "x")] 1 (1, 2, 1) (by decide) (by decide)

/-- Counterexample for C9 as stated: with threshold -1 the selection emits the
association (0, 1, -1) whose weight is negative. -/
theorem C9_nonnegative_counterexample :
    (0, 1, (-1 : ℚ)) ∈ get_top_similar_courses [[2, -1], [-1, 2]] 1 (-1) ∧
      ((-1 : ℚ) < 0) := by
  exact ⟨by decide, by decide⟩

/-- Claim C10: for every similarity matrix, k = 0 yields the empty result,
and a 1-by-1 matrix (one row of length at most one) also yields the empty
result, in both cases without any error. -/
theorem C10_degenerate_inputs (m : List (List ℚ)) (t : ℚ) (row : List ℚ) (k : Nat)
    (hrow : row.length ≤ 1) :
    get_top_similar_courses m 0 t = [] ∧ get_top_similar_courses [row] k t = [] := by
  refine ⟨gts_k_zero m t, ?_⟩
  rcases row with _ | ⟨a, rest⟩
  · rfl
  · rcases rest with _ | ⟨b, rest2⟩
    · rfl
    · exfalso
      simp [List.length_cons] at hrow

/-- Witness for C10 at a concrete matrix and a concrete 1-by-1 matrix. -/
theorem C10_degenerate_inputs_witness :
    get_top_similar_courses [[(2:ℚ), 1], [1, 2]] 0 0 = [] ∧
      get_top_similar_courses [[(5:ℚ)]] 3 0 = [] :=
  C10_degenerate_inputs [[(2:ℚ), 1], [1, 2]] 0 [(5:ℚ)] 3 (by decide)
